import Mathlib

/-!
Verification of the frontend logging pipeline in
`src/frontend/lib/logger.ts` (class `Logger`).

The TypeScript class is shallowly embedded: JavaScript arrays become
`List`, `undefined`-able values become `Option`, the `localStorage`
key-value slot becomes an explicit `LocalStore` value threaded through
the functions, and the ambient browser environment (window, navigator,
current URL, storage health) becomes an explicit `Host` record.  The
asynchronous `flushPendingLogs` is modelled by passing in the entries
that were enqueued while the network request was in flight (`during`)
and the delivery outcome (`ok`), which is exactly the information the
awaited continuation observes.
-/

/-- The four log levels of `LogLevel` in logger.ts. -/
inductive LogLevel
  | debug
  | info
  | warn
  | error
deriving DecidableEq, Repr

/-- Model of the untyped `data?: unknown` payload of a `LogEntry`.
The code only ever inspects whether it is an `Error` instance and, if
so, reads its (possibly `undefined`) `stack` property; every other
value is opaque. -/
inductive LogData
  | undef
  | errObj (stack : Option String)
  | plain
deriving DecidableEq, Repr

/-- The `LogEntry` interface from logger.ts. -/
structure LogEntry where
  level : LogLevel
  message : String
  timestamp : String
  data : LogData
  component : Option String
  action : Option String
  userAgent : Option String
  url : Option String
  stack : Option String
deriving DecidableEq, Repr

/-- `maxHistorySize` field of the `Logger` class. -/
def maxHistorySize : Nat := 100

/-- `maxLocalStorageSize` field of the `Logger` class. -/
def maxLocalStorageSize : Nat := 500

/-- The ambient host environment observed by the logger: presence of
`window`, the `navigator.userAgent` string when `navigator` is defined,
`window.location.href`, whether `localStorage.setItem` fails (quota or
unavailability), and the current date used for download file names. -/
structure Host where
  hasWindow : Bool
  navigatorUA : Option String
  windowUrl : String
  storageWriteFails : Bool
  todayDate : String
deriving DecidableEq, Repr

/-- The observable state of the `localStorage` slot under
`localStorageKey`: reading it can throw (storage unavailable), find
nothing, find an unparsable string, or find a serialized entry list. -/
inductive LocalStore
  | unavailable
  | absent
  | corrupt
  | logs (l : List LogEntry)
deriving DecidableEq, Repr

/-- The enrichment performed inside `persistToLocalStorage`
(lines 123-128): spread the entry, set `userAgent` from `navigator`
when defined, `url` from `window.location.href` when `window` is
defined, and `stack` from `data.stack` when `data` is an `Error`. -/
def enrichEntry (host : Host) (entry : LogEntry) : LogEntry :=
  { entry with
    userAgent := host.navigatorUA
    url := if host.hasWindow then some host.windowUrl else none
    stack := match entry.data with
      | LogData.errObj s => s
      | _ => none }

/-- The push-then-truncate step of `persistToLocalStorage`
(lines 130-135): append the enriched entry, then if the list exceeds
`maxLocalStorageSize` keep only the last `maxLocalStorageSize` entries
(`logs.slice(-maxLocalStorageSize)`). -/
def persistAppend (logs : List LogEntry) (entry : LogEntry) : List LogEntry :=
  let l := logs ++ [entry]
  if l.length > maxLocalStorageSize then l.drop (l.length - maxLocalStorageSize) else l

/-- `persistToLocalStorage` (lines 115-142): no-op without `window`;
read the stored list (`getItem` throwing or `JSON.parse` throwing are
caught, leaving the slot unchanged), enrich the entry, append with
truncation, and write back (a failing `setItem` is caught, leaving the
slot unchanged). -/
def persistToLocalStorage (host : Host) (store : LocalStore) (entry : LogEntry) : LocalStore :=
  if host.hasWindow then
    match store with
    | LocalStore.unavailable => LocalStore.unavailable
    | LocalStore.corrupt => LocalStore.corrupt
    | LocalStore.absent =>
        if host.storageWriteFails then LocalStore.absent
        else LocalStore.logs (persistAppend [] (enrichEntry host entry))
    | LocalStore.logs l =>
        if host.storageWriteFails then LocalStore.logs l
        else LocalStore.logs (persistAppend l (enrichEntry host entry))
  else store

/-- `getPersistedLogs` (lines 461-477): empty without `window`; a
throwing read or parse is caught and yields `[]`; an absent item yields
`[]`; otherwise the stored list, filtered by level when one is given. -/
def getPersistedLogs (host : Host) (store : LocalStore) (level : Option LogLevel) : List LogEntry :=
  if host.hasWindow then
    match store with
    | LocalStore.logs l =>
        match level with
        | some lv => l.filter (fun e => decide (e.level = lv))
        | none => l
    | _ => []
  else []

/-- `clearPersistedLogs` (lines 482-490): no-op without `window`; a
throwing `removeItem` is caught (slot unchanged); otherwise the slot
becomes absent. -/
def clearPersistedLogs (host : Host) (store : LocalStore) : LocalStore :=
  if host.hasWindow then
    match store with
    | LocalStore.unavailable => LocalStore.unavailable
    | _ => LocalStore.absent
  else store

/-- Model of the host primitive `JSON.stringify(logs, null, 2)`: an
injective serialization of the entry list to a string.  No claim
inspects the concrete text, only which list gets serialized. -/
def serializeEntries (logs : List LogEntry) : String :=
  reprStr logs

/-- `exportPersistedLogs` (lines 495-498): serialize the persisted
(filtered) list. -/
def exportPersistedLogs (host : Host) (store : LocalStore) (level : Option LogLevel) : String :=
  serializeEntries (getPersistedLogs host store level)

/-- `downloadPersistedLogs` (lines 503-517): no-op without `window`;
otherwise produces a file named `frontend-logs-<date>.json` holding the
serialized persisted (filtered) list. -/
def downloadPersistedLogs (host : Host) (store : LocalStore) (level : Option LogLevel) :
    Option (String × String) :=
  if host.hasWindow then
    some ("frontend-logs-" ++ host.todayDate ++ ".json",
          serializeEntries (getPersistedLogs host store level))
  else none

/-- The in-memory history step of `addToHistory` (lines 100-103): push
the entry, then if the history exceeds `maxHistorySize` remove the
oldest entry (`shift()`). -/
def addToHistoryMem (h : List LogEntry) (entry : LogEntry) : List LogEntry :=
  let h2 := h ++ [entry]
  if h2.length > maxHistorySize then h2.tail else h2

/-- `addToPendingLogs` (lines 165-172): push the entry, and when the
pending queue reaches 10 entries trigger `flushPendingLogs`.  The
returned pair is the pending queue right after the call returns
(the triggered flush synchronously snapshots and clears the queue
before awaiting the network) and whether a flush was triggered. -/
def addToPendingLogs (pending : List LogEntry) (entry : LogEntry) : List LogEntry × Bool :=
  let p := pending ++ [entry]
  if p.length ≥ 10 then ([], true) else (p, false)

/-- Result of one `flushPendingLogs` call: whether a network request
was issued, the batch it carried, and the pending queue once the call
(and its awaited continuation) completed. -/
structure FlushResult where
  requestSent : Bool
  batch : List LogEntry
  pendingAfter : List LogEntry
deriving DecidableEq, Repr

/-- `flushPendingLogs` (lines 188-214): return immediately on an empty
queue; otherwise snapshot the queue into `logsToSend`, clear it, and
send.  `during` is the content of the pending queue when the response
arrives (the entries enqueued while the request was in flight).  On a
non-ok response or a thrown transport error the batch is prepended to
the current queue and the result truncated with `.slice(0, 100)`. -/
def flushPendingLogs (pending during : List LogEntry) (ok : Bool) : FlushResult :=
  if pending.isEmpty then
    { requestSent := false, batch := [], pendingAfter := pending }
  else
    let logsToSend := pending
    if ok then
      { requestSent := true, batch := logsToSend, pendingAfter := during }
    else
      { requestSent := true, batch := logsToSend,
        pendingAfter := (logsToSend ++ during).take 100 }

/-- The mutable fields of the `Logger` singleton that the logging path
touches, together with a count of size-triggered flushes used to state
the threshold property. -/
structure LoggerState where
  logHistory : List LogEntry
  store : LocalStore
  pendingLogs : List LogEntry
  flushes : Nat
deriving DecidableEq, Repr

/-- `addToHistory` (lines 99-110): append to the in-memory history with
eviction; for `error` and `warn` entries additionally persist to
localStorage and enqueue for sending. -/
def addToHistory (host : Host) (s : LoggerState) (entry : LogEntry) : LoggerState :=
  let hist := addToHistoryMem s.logHistory entry
  if entry.level = LogLevel.error ∨ entry.level = LogLevel.warn then
    let st := persistToLocalStorage host s.store entry
    let pq := addToPendingLogs s.pendingLogs entry
    { logHistory := hist
      store := st
      pendingLogs := pq.1
      flushes := s.flushes + (if pq.2 then 1 else 0) }
  else
    { s with logHistory := hist }

/-- State of the pending-send queue alone, with a count of triggered
flushes. -/
structure QueueState where
  pending : List LogEntry
  flushes : Nat
deriving DecidableEq, Repr

/-- One `addToPendingLogs` call viewed as a transition on the queue
state. -/
def enqueueStep (s : QueueState) (entry : LogEntry) : QueueState :=
  match addToPendingLogs s.pending entry with
  | (p, true) => { pending := p, flushes := s.flushes + 1 }
  | (p, false) => { pending := p, flushes := s.flushes }

/-- A sequence of `addToPendingLogs` calls. -/
def enqueueRun (s : QueueState) (es : List LogEntry) : QueueState :=
  es.foldl enqueueStep s

/-- `getHistory` (lines 430-442): optionally filter by exact level,
then — when `limit` is truthy, i.e. given and nonzero — keep the last
`limit` entries (`filtered.slice(-limit)`). -/
def getHistory (history : List LogEntry) (level : Option LogLevel) (limit : Option Nat) :
    List LogEntry :=
  let filtered := match level with
    | some lv => history.filter (fun e => decide (e.level = lv))
    | none => history
  match limit with
  | some n => if n = 0 then filtered else filtered.drop (filtered.length - n)
  | none => filtered

/-- The re-queue policy as the specification sentence words it: the
re-queued pending list is the most recent 100 entries of the combined
batch-then-pending list (newest kept, oldest truncated).  Stated for
comparison against `flushPendingLogs`. -/
def specRequeue (batch during : List LogEntry) : List LogEntry :=
  let c := batch ++ during
  c.drop (c.length - 100)

/-! ## Helper lemmas -/

theorem addToHistoryMem_eq_drop (h : List LogEntry) (e : LogEntry)
    (hh : h.length ≤ maxHistorySize) :
    addToHistoryMem h e = (h ++ [e]).drop ((h ++ [e]).length - maxHistorySize) := by
  unfold addToHistoryMem
  by_cases hc : (h ++ [e]).length > maxHistorySize
  · simp only [hc, if_true]
    have hlen : (h ++ [e]).length - maxHistorySize = 1 := by
      simp only [List.length_append, List.length_singleton] at *
      omega
    rw [hlen, List.drop_one]
  · simp only [hc, if_false]
    have hlen : (h ++ [e]).length - maxHistorySize = 0 := by omega
    rw [hlen, List.drop_zero]

theorem persistAppend_eq_drop (h : List LogEntry) (e : LogEntry)
    (_hh : h.length ≤ maxLocalStorageSize) :
    persistAppend h e = (h ++ [e]).drop ((h ++ [e]).length - maxLocalStorageSize) := by
  unfold persistAppend
  by_cases hc : (h ++ [e]).length > maxLocalStorageSize
  · simp only [hc, if_true]
  · simp only [hc, if_false]
    have hlen : (h ++ [e]).length - maxLocalStorageSize = 0 := by omega
    rw [hlen, List.drop_zero]

theorem foldl_capped (step : List LogEntry → LogEntry → List LogEntry) (cap : Nat)
    (hstep : ∀ h e, h.length ≤ cap →
      step h e = (h ++ [e]).drop ((h ++ [e]).length - cap)) :
    ∀ (es h : List LogEntry), h.length ≤ cap →
      es.foldl step h = (h ++ es).drop ((h ++ es).length - cap) := by
  intro es
  induction es with
  | nil =>
    intro h hh
    simp only [List.foldl_nil, List.append_nil]
    have h0 : h.length - cap = 0 := by omega
    rw [h0, List.drop_zero]
  | cons e t ih =>
    intro h hh
    rw [List.foldl_cons, hstep h e hh]
    have hkle : (h ++ [e]).length - cap ≤ (h ++ [e]).length := Nat.sub_le _ _
    have hlen2 : ((h ++ [e]).drop ((h ++ [e]).length - cap)).length ≤ cap := by
      simp only [List.length_drop]
      omega
    rw [ih _ hlen2]
    have hDt : (h ++ [e]).drop ((h ++ [e]).length - cap) ++ t
        = ((h ++ [e]) ++ t).drop ((h ++ [e]).length - cap) :=
      (List.drop_append_of_le_length hkle).symm
    rw [hDt, List.drop_drop]
    have hX : (h ++ [e]) ++ t = h ++ e :: t := by simp
    rw [hX]
    congr 1
    simp only [List.length_drop, List.length_append, List.length_cons,
      List.length_singleton, List.length_nil] at *
    omega

theorem flushPendingLogs_fail_eq (batch during : List LogEntry) (hne : batch ≠ []) :
    (flushPendingLogs batch during false).pendingAfter = (batch ++ during).take 100 := by
  unfold flushPendingLogs
  have hb : batch.isEmpty = false := by
    cases batch with
    | nil => simp at hne
    | cons a l => rfl
  simp [hb]

/-- A fixed error-level entry used for concrete evaluations. -/
def entA : LogEntry :=
  { level := LogLevel.error, message := "a", timestamp := "t",
    data := LogData.undef, component := none, action := none,
    userAgent := none, url := none, stack := none }

/-- A second, distinct error-level entry. -/
def entB : LogEntry :=
  { entA with message := "b" }

/-- A 101-entry batch: `entA` followed by 100 copies of `entB`. -/
def bigBatch : List LogEntry := entA :: List.replicate 100 entB

/-! ## Claims -/

/-- C3: for every sequence of logged entries, the in-memory history
never exceeds 100 entries and the persisted store never exceeds 500;
in both cases the retained entries are exactly the most-recently
appended capacity-many, in original insertion order (oldest dropped
first). -/
theorem history_and_persist_bounded_fifo (es : List LogEntry) :
    (es.foldl addToHistoryMem []).length ≤ maxHistorySize ∧
    es.foldl addToHistoryMem [] = es.drop (es.length - maxHistorySize) ∧
    (es.foldl persistAppend []).length ≤ maxLocalStorageSize ∧
    es.foldl persistAppend [] = es.drop (es.length - maxLocalStorageSize) := by
  have h1 := foldl_capped addToHistoryMem maxHistorySize addToHistoryMem_eq_drop es []
    (by simp)
  have h2 := foldl_capped persistAppend maxLocalStorageSize persistAppend_eq_drop es []
    (by simp)
  simp only [List.nil_append] at h1 h2
  refine ⟨?_, h1, ?_, h2⟩
  · rw [h1]
    simp only [List.length_drop]
    omega
  · rw [h2]
    simp only [List.length_drop]
    omega

/-- C1 counterexample: on a failed flush of a 101-entry batch with an
empty current pending list, the code re-queues `.slice(0, 100)` — the
first 100 entries of the combined list — which differs from the most
recent 100 entries demanded by the claim (`specRequeue`). -/
theorem requeue_not_most_recent_cex :
    (flushPendingLogs bigBatch [] false).pendingAfter ≠ specRequeue bigBatch [] := by
  decide

/-- C1 (amended): on a failed flush, the re-queued pending list is the
initial segment (first `min 100` entries) of the failed batch followed
by the current pending list; beyond 100 entries the newest are dropped
from the tail, batch entries taking priority. -/
theorem requeue_prefix_of_combined (batch during : List LogEntry) (hne : batch ≠ []) :
    (∃ rest, (flushPendingLogs batch during false).pendingAfter ++ rest = batch ++ during) ∧
    (flushPendingLogs batch during false).pendingAfter.length
      = min 100 (batch ++ during).length := by
  rw [flushPendingLogs_fail_eq batch during hne]
  constructor
  · exact ⟨(batch ++ during).drop 100, List.take_append_drop _ _⟩
  · simp [List.length_take]

/-- Witness for the amended C1 at a concrete input. -/
theorem requeue_prefix_of_combined_witness :
    ([entA] : List LogEntry) ≠ [] ∧
    ((∃ rest, (flushPendingLogs [entA] [entB] false).pendingAfter ++ rest
        = [entA] ++ [entB]) ∧
     (flushPendingLogs [entA] [entB] false).pendingAfter.length
        = min 100 ([entA] ++ [entB]).length) :=
  ⟨by decide, requeue_prefix_of_combined [entA] [entB] (by decide)⟩

/-- C2: a failed flush leaves the pending queue at most 100 long, with
the retained entries a prefix of the failed batch followed by a prefix
of the entries enqueued during the attempt (batch entries ahead); and
when the combined length fits within 100, the queue is exactly the
batch followed by those entries. -/
theorem requeue_batch_before_during (batch during : List LogEntry) (hne : batch ≠ []) :
    (flushPendingLogs batch during false).pendingAfter.length ≤ 100 ∧
    (∃ b d, (flushPendingLogs batch during false).pendingAfter = b ++ d ∧
      (∃ b2, b ++ b2 = batch) ∧ (∃ d2, d ++ d2 = during)) ∧
    (batch.length + during.length ≤ 100 →
      (flushPendingLogs batch during false).pendingAfter = batch ++ during) := by
  rw [flushPendingLogs_fail_eq batch during hne]
  refine ⟨?_, ?_, ?_⟩
  · simp [List.length_take]
  · refine ⟨batch.take 100, during.take (100 - batch.length), ?_, ?_, ?_⟩
    · exact List.take_append_eq_append_take
    · exact ⟨batch.drop 100, List.take_append_drop _ _⟩
    · exact ⟨during.drop (100 - batch.length), List.take_append_drop _ _⟩
  · intro hle
    apply List.take_of_length_le
    simp only [List.length_append]
    omega

/-- Witness for C2 at a concrete input. -/
theorem requeue_batch_before_during_witness :
    ([entA] : List LogEntry) ≠ [] ∧
    ((flushPendingLogs [entA] [entB] false).pendingAfter.length ≤ 100 ∧
     (∃ b d, (flushPendingLogs [entA] [entB] false).pendingAfter = b ++ d ∧
       (∃ b2, b ++ b2 = [entA]) ∧ (∃ d2, d ++ d2 = [entB])) ∧
     (([entA] : List LogEntry).length + ([entB] : List LogEntry).length ≤ 100 →
       (flushPendingLogs [entA] [entB] false).pendingAfter = [entA] ++ [entB])) :=
  ⟨by decide, requeue_batch_before_during [entA] [entB] (by decide)⟩

theorem enqueueRun_reaches_threshold :
    ∀ (es p : List LogEntry) (k : Nat), p.length < 10 → p.length + es.length = 10 →
      enqueueRun { pending := p, flushes := k } es = { pending := [], flushes := k + 1 } := by
  intro es
  induction es with
  | nil =>
    intro p k h1 h2
    simp only [List.length_nil] at h2
    omega
  | cons e t ih =>
    intro p k h1 h2
    by_cases hc : 9 ≤ p.length
    · have ht : t = [] := by
        apply List.length_eq_zero.mp
        simp only [List.length_cons] at h2
        omega
      subst ht
      simp [enqueueRun, enqueueStep, addToPendingLogs, hc]
    · have hstep : enqueueStep { pending := p, flushes := k } e
          = { pending := p ++ [e], flushes := k } := by
        simp [enqueueStep, addToPendingLogs, hc]
      have hrun : enqueueRun { pending := p, flushes := k } (e :: t)
          = enqueueRun (enqueueStep { pending := p, flushes := k } e) t := rfl
      rw [hrun, hstep]
      apply ih
      · simp only [List.length_append, List.length_singleton]
        omega
      · simp only [List.length_cons] at h2
        simp only [List.length_append, List.length_singleton]
        omega

theorem enqueueRun_below_threshold :
    ∀ (es p : List LogEntry) (k : Nat), p.length + es.length < 10 →
      enqueueRun { pending := p, flushes := k } es = { pending := p ++ es, flushes := k } := by
  intro es
  induction es with
  | nil =>
    intro p k h
    simp [enqueueRun]
  | cons e t ih =>
    intro p k h
    simp only [List.length_cons] at h
    have hc : ¬(9 ≤ p.length) := by omega
    have hstep : enqueueStep { pending := p, flushes := k } e
        = { pending := p ++ [e], flushes := k } := by
      simp [enqueueStep, addToPendingLogs, hc]
    have hrun : enqueueRun { pending := p, flushes := k } (e :: t)
        = enqueueRun (enqueueStep { pending := p, flushes := k } e) t := rfl
    rw [hrun, hstep, ih]
    · simp
    · simp only [List.length_append, List.length_singleton]
      omega

/-- C6: from any pending queue below the 10-entry threshold, the run of
enqueues that makes the length reach 10 triggers exactly one automatic
flush, which synchronously empties the queue; runs that stay below the
threshold trigger no flush and simply append. -/
theorem enqueue_threshold_single_flush (p es : List LogEntry) :
    (p.length < 10 → p.length + es.length = 10 →
      enqueueRun { pending := p, flushes := 0 } es
        = { pending := [], flushes := 1 }) ∧
    (p.length + es.length < 10 →
      enqueueRun { pending := p, flushes := 0 } es
        = { pending := p ++ es, flushes := 0 }) :=
  ⟨fun h1 h2 => enqueueRun_reaches_threshold es p 0 h1 h2,
   fun h => enqueueRun_below_threshold es p 0 h⟩

/-- Witness for C6: ten enqueues from empty trigger exactly one flush
and leave the queue empty; a single enqueue from empty triggers none. -/
theorem enqueue_threshold_single_flush_witness :
    enqueueRun { pending := ([] : List LogEntry), flushes := 0 } (List.replicate 10 entA)
      = { pending := [], flushes := 1 } ∧
    enqueueRun { pending := ([] : List LogEntry), flushes := 0 } [entA]
      = { pending := [entA], flushes := 0 } :=
  ⟨(enqueue_threshold_single_flush [] (List.replicate 10 entA)).1 (by decide) (by decide),
   (enqueue_threshold_single_flush [] [entA]).2 (by decide)⟩

/-- C7: a flush on an empty queue is a no-op that sends nothing;
otherwise the batch is exactly the snapshotted queue and, on successful
delivery, the resulting queue is exactly the entries enqueued during
the attempt — the sent batch never re-enters. -/
theorem flush_snapshot_semantics (pending during : List LogEntry) (ok : Bool) :
    (pending = [] →
      flushPendingLogs pending during ok
        = { requestSent := false, batch := [], pendingAfter := pending }) ∧
    (pending ≠ [] →
      (flushPendingLogs pending during ok).batch = pending ∧
      (flushPendingLogs pending during ok).requestSent = true ∧
      (ok = true → (flushPendingLogs pending during ok).pendingAfter = during)) := by
  constructor
  · intro h
    subst h
    rfl
  · intro h
    have hb : pending.isEmpty = false := by
      cases pending with
      | nil => simp at h
      | cons a l => rfl
    cases ok <;> simp [flushPendingLogs, hb]

/-- Witness for C7 at concrete inputs: empty-queue no-op, and a
successful one-entry flush leaving only the entry enqueued during the
attempt. -/
theorem flush_snapshot_semantics_witness :
    flushPendingLogs [] [entB] true
      = { requestSent := false, batch := [], pendingAfter := [] } ∧
    ((flushPendingLogs [entA] [entB] true).batch = [entA] ∧
     (flushPendingLogs [entA] [entB] true).requestSent = true ∧
     (flushPendingLogs [entA] [entB] true).pendingAfter = [entB]) :=
  ⟨(flush_snapshot_semantics [] [entB] true).1 rfl,
   ⟨((flush_snapshot_semantics [entA] [entB] true).2 (by decide)).1,
    ((flush_snapshot_semantics [entA] [entB] true).2 (by decide)).2.1,
    ((flush_snapshot_semantics [entA] [entB] true).2 (by decide)).2.2 rfl⟩⟩

/-- A browser-like host: window present, navigator defined, storage
writes succeeding. -/
def host0 : Host :=
  { hasWindow := true, navigatorUA := some "ua", windowUrl := "http://page",
    storageWriteFails := false, todayDate := "2026-10-11" }

/-- A host with no window (server-side execution). -/
def hostNoWin : Host :=
  { hasWindow := false, navigatorUA := none, windowUrl := "",
    storageWriteFails := false, todayDate := "2026-10-11" }

/-- A fresh logger state with empty buffers and working storage. -/
def s0 : LoggerState :=
  { logHistory := [], store := LocalStore.logs [], pendingLogs := [], flushes := 0 }

/-- A warn-level entry whose payload is an Error carrying a stack. -/
def entWarn : LogEntry :=
  { entA with level := LogLevel.warn, data := LogData.errObj (some "trace") }

/-- An info-level entry. -/
def entInfo : LogEntry :=
  { entA with level := LogLevel.info }

/-- C4: a logged entry is persisted and enqueued for sending exactly
when its level is warn or error; debug and info entries only touch the
in-memory history, leaving the persisted store and the pending queue
untouched. -/
theorem warn_error_routing (host : Host) (s : LoggerState) (e : LogEntry) :
    ((e.level = LogLevel.warn ∨ e.level = LogLevel.error) →
      (addToHistory host s e).logHistory = addToHistoryMem s.logHistory e ∧
      (addToHistory host s e).store = persistToLocalStorage host s.store e ∧
      ((addToHistory host s e).pendingLogs = s.pendingLogs ++ [e] ∨
       ((s.pendingLogs ++ [e]).length ≥ 10 ∧ (addToHistory host s e).pendingLogs = []))) ∧
    (e.level ≠ LogLevel.warn ∧ e.level ≠ LogLevel.error →
      (addToHistory host s e).logHistory = addToHistoryMem s.logHistory e ∧
      (addToHistory host s e).store = s.store ∧
      (addToHistory host s e).pendingLogs = s.pendingLogs) := by
  constructor
  · intro hl
    have h3 : (addToHistory host s e).pendingLogs = (addToPendingLogs s.pendingLogs e).1 ∧
        (addToHistory host s e).logHistory = addToHistoryMem s.logHistory e ∧
        (addToHistory host s e).store = persistToLocalStorage host s.store e := by
      rcases hl with h | h <;> simp [addToHistory, h]
    refine ⟨h3.2.1, h3.2.2, ?_⟩
    rw [h3.1]
    by_cases hc : (s.pendingLogs ++ [e]).length ≥ 10
    · right
      refine ⟨hc, ?_⟩
      simp only [List.length_append, List.length_singleton] at hc
      have hc2 : 9 ≤ s.pendingLogs.length := by omega
      simp [addToPendingLogs, hc2]
    · left
      simp only [List.length_append, List.length_singleton] at hc
      have hc2 : ¬(9 ≤ s.pendingLogs.length) := by omega
      simp [addToPendingLogs, hc2]
  · intro hno
    have hcond : ¬(e.level = LogLevel.error ∨ e.level = LogLevel.warn) := by
      intro hor
      rcases hor with h | h
      · exact hno.2 h
      · exact hno.1 h
    simp [addToHistory, hcond]

/-- Witness for C4: a warn entry is persisted and enqueued; an info
entry leaves store and queue untouched. -/
theorem warn_error_routing_witness :
    ((entWarn.level = LogLevel.warn ∨ entWarn.level = LogLevel.error) ∧
     ((addToHistory host0 s0 entWarn).logHistory = addToHistoryMem s0.logHistory entWarn ∧
      (addToHistory host0 s0 entWarn).store = persistToLocalStorage host0 s0.store entWarn ∧
      ((addToHistory host0 s0 entWarn).pendingLogs = s0.pendingLogs ++ [entWarn] ∨
       ((s0.pendingLogs ++ [entWarn]).length ≥ 10 ∧
        (addToHistory host0 s0 entWarn).pendingLogs = [])))) ∧
    ((entInfo.level ≠ LogLevel.warn ∧ entInfo.level ≠ LogLevel.error) ∧
     ((addToHistory host0 s0 entInfo).logHistory = addToHistoryMem s0.logHistory entInfo ∧
      (addToHistory host0 s0 entInfo).store = s0.store ∧
      (addToHistory host0 s0 entInfo).pendingLogs = s0.pendingLogs)) :=
  ⟨⟨Or.inl rfl, (warn_error_routing host0 s0 entWarn).1 (Or.inl rfl)⟩,
   ⟨by decide, (warn_error_routing host0 s0 entInfo).2 (by decide)⟩⟩

/-- C5: persisting a warn or error entry into a readable store with
working writes stores the enriched entry as the newest element; the
enrichment populates userAgent from the navigator, url from the window
location, and a stack exactly when the data payload carries one. -/
theorem persist_enriches_entry (host : Host) (l : List LogEntry) (e : LogEntry)
    (hw : host.hasWindow = true) (hwr : host.storageWriteFails = false)
    (_hl : e.level = LogLevel.warn ∨ e.level = LogLevel.error) :
    ∃ l2, persistToLocalStorage host (LocalStore.logs l) e = LocalStore.logs l2 ∧
      l2.getLast? = some (enrichEntry host e) ∧
      (enrichEntry host e).userAgent = host.navigatorUA ∧
      (enrichEntry host e).url = some host.windowUrl ∧
      ((enrichEntry host e).stack.isSome = true ↔
        ∃ tr, e.data = LogData.errObj (some tr)) := by
  refine ⟨persistAppend l (enrichEntry host e), ?_, ?_, ?_, ?_, ?_⟩
  · simp [persistToLocalStorage, hw, hwr]
  · unfold persistAppend
    by_cases hc : (l ++ [enrichEntry host e]).length > maxLocalStorageSize
    · simp only [hc, if_true]
      have hk : (l ++ [enrichEntry host e]).length - maxLocalStorageSize ≤ l.length := by
        simp only [List.length_append, List.length_singleton, maxLocalStorageSize]
        omega
      rw [List.drop_append_of_le_length hk]
      exact List.getLast?_concat _
    · simp only [hc, if_false]
      exact List.getLast?_concat _
  · rfl
  · simp [enrichEntry, hw]
  · cases hd : e.data with
    | undef => simp [enrichEntry, hd]
    | errObj s =>
      cases s with
      | none => simp [enrichEntry, hd]
      | some tr => simp [enrichEntry, hd]
    | plain => simp [enrichEntry, hd]

/-- Witness for C5: a warn entry with an Error payload persisted into
an empty store on a browser host. -/
theorem persist_enriches_entry_witness :
    host0.hasWindow = true ∧ host0.storageWriteFails = false ∧
    (entWarn.level = LogLevel.warn ∨ entWarn.level = LogLevel.error) ∧
    (∃ l2, persistToLocalStorage host0 (LocalStore.logs []) entWarn = LocalStore.logs l2 ∧
      l2.getLast? = some (enrichEntry host0 entWarn) ∧
      (enrichEntry host0 entWarn).userAgent = host0.navigatorUA ∧
      (enrichEntry host0 entWarn).url = some host0.windowUrl ∧
      ((enrichEntry host0 entWarn).stack.isSome = true ↔
        ∃ tr, entWarn.data = LogData.errObj (some tr))) :=
  ⟨rfl, rfl, Or.inl rfl, persist_enriches_entry host0 [] entWarn rfl rfl (Or.inl rfl)⟩

/-- An error-level entry with a given message. -/
def mkErr (m : String) : LogEntry :=
  { entA with message := m }

/-- A warn-level entry with a given message. -/
def mkWarn (m : String) : LogEntry :=
  { entA with level := LogLevel.warn, message := m }

/-- The history of the specification example: five errors and three
warnings, interleaved in chronological order. -/
def histEx : List LogEntry :=
  [mkErr "e1", mkWarn "w1", mkErr "e2", mkErr "e3", mkWarn "w2",
   mkErr "e4", mkWarn "w3", mkErr "e5"]

/-- C8: with a level filter every returned entry has that level, and
with a positive limit the result is exactly the last `limit`-many
entries of the filtered list — a suffix of it, of length
`min limit`, still in chronological (sublist) order. -/
theorem getHistory_filter_limit (h : List LogEntry) (lv : LogLevel) (n : Nat)
    (hn : 0 < n) :
    (∀ e ∈ getHistory h (some lv) (some n), e.level = lv) ∧
    (∃ pre, pre ++ getHistory h (some lv) (some n)
        = h.filter (fun e => decide (e.level = lv))) ∧
    (getHistory h (some lv) (some n)).length
      = min n (h.filter (fun e => decide (e.level = lv))).length ∧
    List.Sublist (getHistory h (some lv) (some n)) h := by
  have hne : n ≠ 0 := Nat.pos_iff_ne_zero.mp hn
  have hg : getHistory h (some lv) (some n)
      = (h.filter (fun e => decide (e.level = lv))).drop
          ((h.filter (fun e => decide (e.level = lv))).length - n) := by
    simp [getHistory, hne]
  rw [hg]
  refine ⟨?_, ?_, ?_, ?_⟩
  · intro e he
    have hmem := List.mem_of_mem_drop he
    simp only [List.mem_filter, decide_eq_true_eq] at hmem
    exact hmem.2
  · exact ⟨(h.filter (fun e => decide (e.level = lv))).take
      ((h.filter (fun e => decide (e.level = lv))).length - n),
      List.take_append_drop _ _⟩
  · simp only [List.length_drop]
    omega
  · exact (List.drop_sublist _ _).trans (List.filter_sublist h)

/-- Witness for C8: the specification example — on five errors and
three warnings, querying errors with limit 2 returns the last two
errors in chronological order. -/
theorem getHistory_filter_limit_witness :
    0 < 2 ∧
    ((∀ e ∈ getHistory histEx (some LogLevel.error) (some 2), e.level = LogLevel.error) ∧
     (∃ pre, pre ++ getHistory histEx (some LogLevel.error) (some 2)
         = histEx.filter (fun e => decide (e.level = LogLevel.error))) ∧
     (getHistory histEx (some LogLevel.error) (some 2)).length
       = min 2 (histEx.filter (fun e => decide (e.level = LogLevel.error))).length ∧
     List.Sublist (getHistory histEx (some LogLevel.error) (some 2)) histEx) ∧
    getHistory histEx (some LogLevel.error) (some 2) = [mkErr "e4", mkErr "e5"] :=
  ⟨by decide, getHistory_filter_limit histEx LogLevel.error 2 (by decide), by decide⟩

/-- C9: with no window every persistence operation is a safe no-op with
an empty result; a throwing or corrupt storage read is caught (persist
leaves the slot unchanged and loading yields the empty list); and a
failing write (`setItem` throwing, e.g. quota exceeded) is caught,
leaving the slot unchanged whatever its content. -/
theorem persistence_noop_without_window (host : Host) (store : LocalStore)
    (lv : Option LogLevel) (e : LogEntry) :
    (host.hasWindow = false →
      persistToLocalStorage host store e = store ∧
      getPersistedLogs host store lv = [] ∧
      clearPersistedLogs host store = store ∧
      exportPersistedLogs host store lv = serializeEntries [] ∧
      downloadPersistedLogs host store lv = none) ∧
    (persistToLocalStorage host LocalStore.unavailable e = LocalStore.unavailable ∧
     persistToLocalStorage host LocalStore.corrupt e = LocalStore.corrupt ∧
     getPersistedLogs host LocalStore.unavailable lv = [] ∧
     getPersistedLogs host LocalStore.corrupt lv = []) ∧
    (host.storageWriteFails = true →
      persistToLocalStorage host store e = store) := by
  refine ⟨?_, ?_, ?_⟩
  · intro hw
    refine ⟨?_, ?_, ?_, ?_, ?_⟩ <;>
      simp [persistToLocalStorage, getPersistedLogs, clearPersistedLogs,
        exportPersistedLogs, downloadPersistedLogs, hw]
  · refine ⟨?_, ?_, ?_, ?_⟩ <;>
      (cases hwv : host.hasWindow <;> simp [persistToLocalStorage, getPersistedLogs, hwv])
  · intro hwr
    cases hwv : host.hasWindow <;>
      cases store <;> simp [persistToLocalStorage, hwv, hwr]

/-- A browser host whose `setItem` fails (quota exceeded). -/
def hostQuotaFail : Host :=
  { host0 with storageWriteFails := true }

/-- Witness for C9: a windowless host over a populated store, a browser
host over unavailable storage, and a browser host whose write fails
over a populated store. -/
theorem persistence_noop_without_window_witness :
    hostNoWin.hasWindow = false ∧
    (persistToLocalStorage hostNoWin (LocalStore.logs [entA]) entWarn
        = LocalStore.logs [entA] ∧
     getPersistedLogs hostNoWin (LocalStore.logs [entA]) (some LogLevel.error) = [] ∧
     clearPersistedLogs hostNoWin (LocalStore.logs [entA]) = LocalStore.logs [entA] ∧
     exportPersistedLogs hostNoWin (LocalStore.logs [entA]) (some LogLevel.error)
        = serializeEntries [] ∧
     downloadPersistedLogs hostNoWin (LocalStore.logs [entA]) (some LogLevel.error) = none) ∧
    (persistToLocalStorage host0 LocalStore.unavailable entWarn = LocalStore.unavailable ∧
     persistToLocalStorage host0 LocalStore.corrupt entWarn = LocalStore.corrupt ∧
     getPersistedLogs host0 LocalStore.unavailable (some LogLevel.error) = [] ∧
     getPersistedLogs host0 LocalStore.corrupt (some LogLevel.error) = []) ∧
    (hostQuotaFail.storageWriteFails = true ∧
     persistToLocalStorage hostQuotaFail (LocalStore.logs [entA]) entWarn
        = LocalStore.logs [entA]) :=
  ⟨rfl,
   (persistence_noop_without_window hostNoWin (LocalStore.logs [entA])
      (some LogLevel.error) entWarn).1 rfl,
   (persistence_noop_without_window host0 LocalStore.absent
      (some LogLevel.error) entWarn).2.1,
   ⟨rfl,
    (persistence_noop_without_window hostQuotaFail (LocalStore.logs [entA])
      (some LogLevel.error) entWarn).2.2 rfl⟩⟩

/-- C10: a zero limit is falsy in the JavaScript truthiness test, so
`getHistory` with limit 0 returns the whole filtered list, exactly as
if no limit had been given. -/
theorem getHistory_zero_limit_no_limit (h : List LogEntry) (lv : Option LogLevel) :
    getHistory h lv (some 0) = getHistory h lv none := by
  simp [getHistory]
